import Mathlib

/-!
Verification of the CubeGen-Ai-Window diagram application against its
natural-language specification.

The development shallowly embeds the relevant program parts:

* `src/src/components/CodeEditor.tsx` — the `esc` HTML escaper, the `span`
  markup builder and the `highlightLine` syntax highlighter (embedded here
  as `esc`, `spanStr`, `hlStep`/`hlLoop`/`highlightLine` over `List Char`;
  the index-based scanning loop of the source becomes recursion on the
  remaining suffix, with the consumed count mirroring the index advance).
* the `CodePlayground` component (`handleGenerate` and the `errorLine`
  prop wiring, plus the editor's per-row `isError` computation).
* `src/src/services/projectStore.ts` — `saveProject`, `loadProject`,
  `archiveProject`, `listArchivedProjects` over an explicit key/value
  store; `JSON.stringify`/`JSON.parse` are modelled by an embedding of
  `SavedProject` into a JSON value tree (`Json`), the store holding the
  parsed values.
* `src/src/components/content/iconConstants.tsx` — the proxy `get` trap
  of `ICONS`, as the pure lookup `iconLookup`.
* `src/utils/cubegenDSL.ts` is imported by the playground but its source
  is not part of the repository snapshot; the parser `parseCubeGenDSL`
  below is modelled from the specification (sections 3, 4 and 7).
-/

namespace CubeGen

/-! ## CodeEditor.tsx — HTML escaping and syntax highlighting -/

/-- `esc` from CodeEditor.tsx, per character:
`s.replace(/&/g,'&amp;').replace(/</g,'&lt;').replace(/>/g,'&gt;')`. -/
def escChar (c : Char) : List Char :=
  if c = '&' then "&amp;".toList
  else if c = '<' then "&lt;".toList
  else if c = '>' then "&gt;".toList
  else [c]

/-- `esc` on a whole string (as a character list). -/
def esc (s : List Char) : List Char := (s.map escChar).flatten

/-- The `span(color, text, bold)` helper of CodeEditor.tsx:
`<span style="color:${color}${bold ? ';font-weight:700' : ''}">${esc(text)}</span>`. -/
def spanStr (color : List Char) (bold : Bool) (text : List Char) : List Char :=
  "<span style=\"color:".toList ++ color ++
    (if bold then ";font-weight:700".toList else []) ++
    "\">".toList ++ esc text ++ "</span>".toList

/-! Dracula palette `T` of CodeEditor.tsx (the fields used by `highlightLine`). -/

namespace T

def keyword : List Char := "#ff79c6".toList
def ident : List Char := "#50fa7b".toList
def stringCol : List Char := "#f1fa8c".toList
def number : List Char := "#bd93f9".toList
def arrow : List Char := "#ff5555".toList
def prop : List Char := "#8be9fd".toList
def propVal : List Char := "#ffb86c".toList
def comment : List Char := "#6272a4".toList
def plain : List Char := "#f8f8f2".toList
def gutter : List Char := "#6272a4".toList

end T

/-- JavaScript whitespace, as trimmed by `String.prototype.trimStart`/`trim`
(the characters that can occur in this code base). -/
def isJsWhite (c : Char) : Bool :=
  c = ' ' || c = '\t' || c = '\n' || c = '\r' ||
  c = Char.ofNat 11 || c = Char.ofNat 12 || c = Char.ofNat 160 || c = Char.ofNat 65279

/-- The character class `[a-zA-Z0-9_\-]` of the word-token scan. -/
def isWordChar (c : Char) : Bool :=
  ('a' ≤ c && c ≤ 'z') || ('A' ≤ c && c ≤ 'Z') || ('0' ≤ c && c ≤ '9') ||
  c = '_' || c = '-'

/-- The test `/^\d+$/.test(s)`. -/
def isAllDigits (s : List Char) : Bool :=
  !s.isEmpty && s.all (fun c => '0' ≤ c && c ≤ '9')

/-- One iteration of the scanning `while` loop of `highlightLine`
(CodeEditor.tsx lines 66–115).  The loop head is at character `c`, the rest
of the line is `t`; the result is the emitted HTML and the number of
characters consumed (the advance of the index `i`).  The branch order is
exactly the source's: whitespace, string, `<->` before `->`, braces, colon,
`=` with its value scan, word token, fallback. -/
def hlStep (c : Char) (t : List Char) : List Char × Nat :=
  if c = ' ' || c = '\t' then ([c], 1)
  else if c = '"' then
    -- j scans from i+1 while line[j] ≠ '"'; emits substring(i, j+1)
    let tk := t.takeWhile (fun d => !(d = '"'))
    if tk.length < t.length then
      (spanStr T.stringCol false ('"' :: tk ++ ['"']), tk.length + 2)
    else
      -- unterminated quote: substring clamps at the end of the line,
      -- i is set past the end
      (spanStr T.stringCol false ('"' :: tk), t.length + 1)
  else if c = '<' && t.take 2 = ['-', '>'] then
    (spanStr T.arrow true "<->".toList, 3)
  else if c = '-' && t.take 1 = ['>'] then
    (spanStr T.arrow true "->".toList, 2)
  else if c = '{' || c = '}' then (spanStr T.plain true [c], 1)
  else if c = ':' then (spanStr T.gutter false [c], 1)
  else if c = '=' then
    let val := t.takeWhile (fun d => !(d = ' ') && !(d = '\t') && !(d = '"'))
    (spanStr T.plain false ['='] ++
      (if val.isEmpty then []
       else if isAllDigits val then spanStr T.number false val
       else spanStr T.propVal false val),
     1 + val.length)
  else
    let word := (c :: t).takeWhile isWordChar
    if word.isEmpty then (escChar c, 1)
    else
      let after := (c :: t).drop word.length
      ((if word = "node".toList || word = "container".toList then
          spanStr T.keyword true word
        else if after.head? = some '=' then spanStr T.prop false word
        else if isAllDigits word then spanStr T.number false word
        else spanStr T.ident false word),
       word.length)

/-- The scanning loop of `highlightLine`, with explicit fuel so the
function is structurally recursive and computable by the kernel.  Since
each `hlStep` consumes at least one character (`hlStep_pos`), fuel equal
to the line length is always sufficient. -/
def hlLoopF (fuel : Nat) (l : List Char) : List Char :=
  match fuel, l with
  | 0, _ => []
  | _ + 1, [] => []
  | f + 1, c :: t => (hlStep c t).1 ++ hlLoopF f ((c :: t).drop (hlStep c t).2)

/-- The scanning loop of `highlightLine` (CodeEditor.tsx lines 66–115):
repeatedly apply `hlStep` and append the emitted HTML, until the line is
exhausted. -/
def hlLoop (l : List Char) : List Char := hlLoopF l.length l

/-- The comment branch markup of `highlightLine`:
`<span style="color:${T.comment};font-style:italic">${esc(trimmed)}</span>`. -/
def commentSpan (trimmed : List Char) : List Char :=
  "<span style=\"color:".toList ++ T.comment ++ ";font-style:italic\">".toList ++
    esc trimmed ++ "</span>".toList

/-- `highlightLine` of CodeEditor.tsx: empty lines become `"\n"`; a line
whose `trimStart()` begins with `//` becomes `' '.repeat(indent)` followed
by a single comment span; every other line is scanned by the loop. -/
def highlightLine (line : List Char) : List Char :=
  if line.isEmpty then ['\n']
  else
    let trimmed := line.dropWhile isJsWhite
    if trimmed.take 2 = ['/', '/'] then
      List.replicate (line.length - trimmed.length) ' ' ++ commentSpan trimmed
    else hlLoop line

/-! ## cubegenDSL.ts — the DSL parser, modelled from the specification

The playground imports `parseCubeGenDSL` and `ParseError` from
`../utils/cubegenDSL`, but that module's source is not part of the
repository snapshot; the definitions below are modelled from the
specification (spec.md sections 3, 4 and 7). -/

/-- Modelled from the spec: the `ParseError` record of the missing
`src/utils/cubegenDSL.ts` — "line number (1-based, matching the source
text), human-readable message". -/
structure ParseError where
  line : Nat
  message : String
deriving DecidableEq, Repr

/-- Modelled from the spec: a `node`/`container` record of the missing
parser output — `{id, label, icon?, x?, y?, width?, height?, parent?}`.
Numeric attribute values are kept as their raw validated tokens. -/
structure ArchNode where
  id : String
  label : String
  icon : Option String
  x : Option String
  y : Option String
  w : Option String
  h : Option String
  parent : Option String
deriving DecidableEq, Repr

/-- Modelled from the spec: a resolved link record
`{id, source, target, bidirectional, label?}`. -/
structure LinkRec where
  id : String
  source : String
  target : String
  bidirectional : Bool
  label : Option String
deriving DecidableEq, Repr

/-- Modelled from the spec: the `DiagramDocument` output contract — title,
ordered nodes, ordered containers, ordered resolved links. -/
structure DiagramDoc where
  title : String
  nodes : List ArchNode
  containers : List ArchNode
  links : List LinkRec
deriving DecidableEq, Repr

/-- Modelled from the spec: the result of the top-level parse —
`Success{document}` or `Failure{errors}`; there is no partial-success
return (spec §4.5), so `data` is present exactly when `success` holds. -/
structure ParseResult where
  success : Bool
  data : Option DiagramDoc
  errors : List ParseError
deriving DecidableEq, Repr

/-- A tentatively accepted link statement, before resolution (spec §4.3:
"the link is tentatively accepted at this stage"). -/
structure LinkTent where
  line : Nat
  source : String
  target : String
  bidirectional : Bool
  label : Option String
deriving DecidableEq, Repr

/-- `String.split('\n')` semantics on character lists. -/
def splitLines : List Char → List (List Char)
  | [] => [[]]
  | c :: t =>
    if c = '\n' then [] :: splitLines t
    else
      match splitLines t with
      | [] => [[c]]
      | h :: r => (c :: h) :: r

/-- `trimStart()` on character lists. -/
def trimLeft (l : List Char) : List Char := l.dropWhile isJsWhite

/-- `trim()` on character lists. -/
def trimBoth (l : List Char) : List Char :=
  ((l.dropWhile isJsWhite).reverse.dropWhile isJsWhite).reverse

/-- A numeric attribute token: base-10 integer or decimal (spec §4.2). -/
def isNumTok (s : List Char) : Bool :=
  !s.isEmpty && s.all (fun c => ('0' ≤ c && c ≤ '9') || c = '.') &&
    s.count '.' ≤ 1 && s.any (fun c => '0' ≤ c && c ≤ '9')

/-- Whether the line contains the substring `->` outside of any quoted
string (spec §4.1 link classification; `<->` contains `->`). -/
def hasArrow (inQ : Bool) : List Char → Bool
  | [] => false
  | c :: t =>
    if c = '"' then hasArrow (!inQ) t
    else if !inQ && c = '-' && t.take 1 = ['>'] then true
    else hasArrow inQ t

/-- Split a link line at the first arrow outside quotes, checking the
longer operator `<->` before `->` (spec §4.3); returns
(left part, bidirectional?, right part). -/
def splitArrow (inQ : Bool) (left : List Char) : List Char → Option (List Char × Bool × List Char)
  | [] => none
  | c :: t =>
    if c = '"' then splitArrow (!inQ) (left ++ [c]) t
    else if !inQ && c = '<' && t.take 2 = ['-', '>'] then some (left, true, t.drop 2)
    else if !inQ && c = '-' && t.take 1 = ['>'] then some (left, false, t.drop 1)
    else splitArrow inQ (left ++ [c]) t

/-- Parse a quoted string `"..."` at the head of the input; `none` when the
head is not a quote or the quote is unterminated. Returns the string's
content and the rest of the input. -/
def parseQuoted (l : List Char) : Option (List Char × List Char) :=
  match l with
  | '"' :: t =>
    let inner := t.takeWhile (fun c => !(c = '"'))
    if inner.length < t.length then some (inner, t.drop (inner.length + 1)) else none
  | _ => none

/-- Split on runs of whitespace (attribute pairs are space-delimited,
spec §4.2). -/
def splitWsGo (cur : List Char) : List Char → List (List Char)
  | [] => if cur.isEmpty then [] else [cur.reverse]
  | c :: t =>
    if isJsWhite c then
      if cur.isEmpty then splitWsGo [] t else cur.reverse :: splitWsGo [] t
    else splitWsGo (c :: cur) t

def splitWs (l : List Char) : List (List Char) := splitWsGo [] l

/-- Accumulator for the `key=value` attribute pairs of one declaration;
`badAttrs` collects numeric attribute keys given non-numeric values. -/
structure AttrAcc where
  icon : Option String
  x : Option String
  y : Option String
  w : Option String
  h : Option String
  parent : Option String
  badAttrs : List String
deriving DecidableEq, Repr

def emptyAttrAcc : AttrAcc := ⟨none, none, none, none, none, none, []⟩

/-- Modelled from the spec (§4.2): apply one `key=value` pair. Recognized
keys are `icon`, `x`, `y`, `w`/`width`, `h`/`height`, `parent`; numeric
keys require a numeric token; unknown keys are accepted and ignored. -/
def applyAttr (a : AttrAcc) (key value : List Char) : AttrAcc :=
  if key = "icon".toList then { a with icon := some value.asString }
  else if key = "parent".toList then { a with parent := some value.asString }
  else if key = "x".toList then
    if isNumTok value then { a with x := some value.asString }
    else { a with badAttrs := a.badAttrs ++ [key.asString] }
  else if key = "y".toList then
    if isNumTok value then { a with y := some value.asString }
    else { a with badAttrs := a.badAttrs ++ [key.asString] }
  else if key = "w".toList || key = "width".toList then
    if isNumTok value then { a with w := some value.asString }
    else { a with badAttrs := a.badAttrs ++ [key.asString] }
  else if key = "h".toList || key = "height".toList then
    if isNumTok value then { a with h := some value.asString }
    else { a with badAttrs := a.badAttrs ++ [key.asString] }
  else a

/-- Parse the attribute tokens of a declaration line; tokens without `=`
are ignored (permissive grammar). -/
def parseAttrs (toks : List (List Char)) : AttrAcc :=
  toks.foldl
    (fun a tok =>
      let key := tok.takeWhile (fun c => !(c = '='))
      if key.length = tok.length then a
      else applyAttr a key (tok.drop (key.length + 1)))
    emptyAttrAcc

/-- The scanning-phase accumulator: partial node/container/link
collections, diagnostics in detection order, and the declared ids. -/
structure ScanAcc where
  nodes : List ArchNode
  containers : List ArchNode
  tents : List LinkTent
  errors : List ParseError
  ids : List String
deriving DecidableEq, Repr

def emptyScanAcc : ScanAcc := ⟨[], [], [], [], []⟩

/-- Modelled from the spec (§4.2): parse one declaration line. `t` is the
trimmed line, which starts with the keyword `node` or `container`. -/
def declLine (acc : ScanAcc) (n : Nat) (t : List Char) (isNode : Bool) : ScanAcc :=
  let kw := t.takeWhile (fun c => !isJsWhite c)
  let rest := trimLeft (t.drop kw.length)
  let ident := rest.takeWhile (fun c => !isJsWhite c && !(c = ':'))
  if ident.isEmpty then
    { acc with errors := acc.errors ++ [⟨n, "Missing identifier"⟩] }
  else
    let rest2 := trimLeft (rest.drop ident.length)
    if !(rest2.head? = some ':') then
      { acc with errors := acc.errors ++ [⟨n, "Missing colon after identifier"⟩] }
    else
      let rest3 := trimLeft (rest2.drop 1)
      match parseQuoted rest3 with
      | none =>
        if rest3.head? = some '"' then
          { acc with errors := acc.errors ++ [⟨n, "Unterminated string"⟩] }
        else
          { acc with errors := acc.errors ++ [⟨n, "Missing quoted label"⟩] }
      | some (label, rest4) =>
        let attrs := parseAttrs (splitWs rest4)
        if !attrs.badAttrs.isEmpty then
          { acc with errors := acc.errors ++
              attrs.badAttrs.map (fun k => ⟨n, "Invalid numeric value for attribute " ++ k⟩) }
        else
          let idS := ident.asString
          if acc.ids.contains idS then
            { acc with errors := acc.errors ++ [⟨n, "Duplicate identifier " ++ idS⟩] }
          else
            let nd : ArchNode :=
              ⟨idS, label.asString, attrs.icon, attrs.x, attrs.y, attrs.w, attrs.h, attrs.parent⟩
            if isNode then
              { acc with nodes := acc.nodes ++ [nd], ids := acc.ids ++ [idS] }
            else
              { acc with containers := acc.containers ++ [nd], ids := acc.ids ++ [idS] }

/-- Modelled from the spec (§4.3): parse one link line. The link is
tentatively accepted; existence of its endpoints is checked only in the
resolution phase. -/
def linkLine (acc : ScanAcc) (n : Nat) (t : List Char) : ScanAcc :=
  match splitArrow false [] t with
  | none => { acc with errors := acc.errors ++ [⟨n, "Malformed link"⟩] }
  | some (left, bidi, right) =>
    let src := trimBoth left
    if src.isEmpty then
      { acc with errors := acc.errors ++ [⟨n, "Missing link source"⟩] }
    else if src.any isJsWhite then
      { acc with errors := acc.errors ++ [⟨n, "Malformed link source"⟩] }
    else
      let r := trimLeft right
      let tgt := r.takeWhile (fun c => !isJsWhite c && !(c = ':'))
      if tgt.isEmpty then
        { acc with errors := acc.errors ++ [⟨n, "Missing link target"⟩] }
      else
        let r2 := trimLeft (r.drop tgt.length)
        if r2.head? = some ':' then
          match parseQuoted (trimLeft (r2.drop 1)) with
          | some (lbl, _) =>
            { acc with tents := acc.tents ++
                [⟨n, src.asString, tgt.asString, bidi, some lbl.asString⟩] }
          | none =>
            { acc with errors := acc.errors ++ [⟨n, "Unterminated string"⟩] }
        else
          { acc with tents := acc.tents ++ [⟨n, src.asString, tgt.asString, bidi, none⟩] }

/-- Modelled from the spec (§4.1): classify one physical line and feed it
to the declaration or link parser; comments and blank lines are dropped;
unknown lines produce a diagnostic but do not stop the scan. -/
def scanLine (acc : ScanAcc) (n : Nat) (line : List Char) : ScanAcc :=
  let t := trimBoth line
  if t.isEmpty then acc
  else if t.take 2 = ['/', '/'] then acc
  else
    let kw := t.takeWhile (fun c => !isJsWhite c)
    if kw = "node".toList || kw = "container".toList then
      declLine acc n t (kw = "node".toList)
    else if hasArrow false t then linkLine acc n t
    else { acc with errors := acc.errors ++ [⟨n, "Unrecognized statement"⟩] }

/-- Scan all lines, numbering them 1-based against the original source. -/
def scanAll (acc : ScanAcc) (n : Nat) : List (List Char) → ScanAcc
  | [] => acc
  | l :: ls => scanAll (scanLine acc n l) (n + 1) ls

/-- Modelled from the spec (§4.4): the resolution phase. Every tentative
link's endpoints must be declared ids; an unresolved endpoint yields a
`ParseError` naming it, and the link is excluded from the result. -/
def resolveLinks (ids : List String) (idx : Nat) :
    List LinkTent → List LinkRec × List ParseError
  | [] => ([], [])
  | tent :: rest =>
    let es : List ParseError :=
      (if ids.contains tent.source then []
       else [⟨tent.line, "Unresolved reference " ++ tent.source⟩]) ++
      (if ids.contains tent.target then []
       else [⟨tent.line, "Unresolved reference " ++ tent.target⟩])
    let r := resolveLinks ids (idx + 1) rest
    if es.isEmpty then
      (⟨"link-" ++ toString idx, tent.source, tent.target, tent.bidirectional, tent.label⟩ :: r.1,
       r.2)
    else (r.1, es ++ r.2)

/-- The returned error list is ordered by ascending line number
(spec §4.4). -/
def sortByLine (errs : List ParseError) : List ParseError :=
  List.insertionSort (fun a b : ParseError => a.line ≤ b.line) errs

instance : IsTotal ParseError (fun a b : ParseError => a.line ≤ b.line) :=
  ⟨fun a b => Nat.le_total a.line b.line⟩

instance : IsTrans ParseError (fun a b : ParseError => a.line ≤ b.line) :=
  ⟨fun _ _ _ => Nat.le_trans⟩

/-- The scanning phase of the parse: all lines, numbered from 1. -/
def parseAcc (input : List Char) : ScanAcc :=
  scanAll emptyScanAcc 1 (splitLines input)

/-- All diagnostics of a parse — scanning-phase errors followed by
resolution-phase errors, sorted by ascending line number. -/
def parseErrsAll (input : List Char) : List ParseError :=
  sortByLine ((parseAcc input).errors ++
    (resolveLinks (parseAcc input).ids 0 (parseAcc input).tents).2)

/-- Modelled from the spec: the top-level parse function of the missing
`src/utils/cubegenDSL.ts` — scan, then resolve, then return either a
complete document or the full error list sorted by line (spec §4.5). -/
def parseCubeGenDSL (input : List Char) : ParseResult :=
  if (parseErrsAll input).isEmpty then
    ⟨true,
     some ⟨"Untitled Diagram", (parseAcc input).nodes, (parseAcc input).containers,
       (resolveLinks (parseAcc input).ids 0 (parseAcc input).tents).1⟩,
     parseErrsAll input⟩
  else ⟨false, none, parseErrsAll input⟩

/-! ## CodePlayground — the Generate handler and editor error marking -/

/-- The component state touched by `handleGenerate`
(part_002, CodePlayground). -/
structure PGState where
  parseErrors : List ParseError
  errorMsg : Option String
  successMsg : Option String
  history : List (Option DiagramDoc)
  historyIndex : Nat
  selectedIds : List String
deriving DecidableEq, Repr

/-- The text of `setError` in the failure branch of `handleGenerate`:
`Syntax error on line ${result.errors[0]?.line}: ${result.errors[0]?.message}`. -/
def genErrMsg (errs : List ParseError) : String :=
  match errs.head? with
  | some e => "Syntax error on line " ++ toString e.line ++ ": " ++ e.message
  | none => "Syntax error on line undefined: undefined"

/-- `handleGenerate` of CodePlayground (part_002 lines 331–352), given the
result of `parseCubeGenDSL(code)`: empty code short-circuits with an error
message; a successful parse replaces the history with the fresh document
and clears the selection; a failed parse stores the full error list. -/
def handleGenerateR (st : PGState) (code : List Char) (result : ParseResult) : PGState :=
  if (trimBoth code).isEmpty then { st with errorMsg := some "Please enter some code." }
  else
    let st1 := { st with errorMsg := none, parseErrors := [] }
    if result.success && result.data.isSome then
      { st1 with history := [result.data], historyIndex := 0, selectedIds := [],
                 successMsg := some "Diagram Generated!" }
    else
      { st1 with parseErrors := result.errors, errorMsg := some (genErrMsg result.errors) }

/-- `handleGenerate` with the parse result supplied by `parseCubeGenDSL`. -/
def handleGenerate (st : PGState) (code : List Char) : PGState :=
  handleGenerateR st code (parseCubeGenDSL code)

/-- The `errorLine` prop passed to the editor:
`parseErrors[0]?.line` (part_002 line 515). -/
def editorErrorLine (parseErrors : List ParseError) : Option Nat :=
  parseErrors.head?.map (fun e => e.line)

/-- The editor's per-row error flag (CodeEditor.tsx line 211):
`isError = lineNum === errorLine` with `lineNum = idx + 1`; a strict
comparison against an absent `errorLine` is false. -/
def isErrorRow (errorLine : Option Nat) (idx : Nat) : Bool :=
  match errorLine with
  | some e => idx + 1 == e
  | none => false

/-! ## projectStore.ts — localStorage-backed project snapshots

`localStorage` is modelled as an association list from string keys to JSON
values.  `JSON.stringify`/`JSON.parse` of the source are modelled by the
embedding `encodeSaved`/`decodeSaved` of `SavedProject` into a JSON value
tree `Json`; the store holds the (parsed) JSON values, which identifies
strings up to JSON serialization exactly as the spec treats persistence
("a key-value blob store with timestamps"). -/

/-- A JSON value tree.  `DiagramData` is opaque to the store and is kept
as an arbitrary JSON value. -/
inductive Json where
  | jnull : Json
  | jbool : Bool → Json
  | jnum : Int → Json
  | jstr : String → Json
  | jarr : List Json → Json
  | jobj : List (String × Json) → Json

/-- `localStorage` as a key-value map (association list). -/
abbrev Store := List (String × Json)

/-- Generic association-list lookup: the first entry with the given key. -/
def assocGet {α : Type} : List (String × α) → String → Option α
  | [], _ => none
  | kv :: t, k => if kv.1 == k then some kv.2 else assocGet t k

/-- `localStorage.getItem`. -/
def getItem (st : Store) (k : String) : Option Json := assocGet st k

/-- `localStorage.setItem`: replaces any entry with the same key. -/
def setItem (st : Store) (k : String) (v : Json) : Store :=
  st.filter (fun kv => !(kv.1 == k)) ++ [(k, v)]

/-- `localStorage.removeItem`. -/
def removeItem (st : Store) (k : String) : Store :=
  st.filter (fun kv => !(kv.1 == k))

/-- The `SavedProject` record of projectStore.ts. -/
structure SavedProject where
  key : String
  diagramData : Json
  code : Option String
  savedAt : String

/-- `STORAGE_PREFIX` of projectStore.ts. -/
def STORAGE_PREFIX_STR : String := "cubegen-project:"

/-- `JSON.stringify` of a `SavedProject` entry, as a JSON value: the four
fields in insertion order, the absent `code` field omitted (as
`JSON.stringify` drops `undefined` properties). -/
def encodeSaved (p : SavedProject) : Json :=
  Json.jobj
    ([("key", Json.jstr p.key), ("diagramData", p.diagramData)] ++
      (match p.code with
       | some c => [("code", Json.jstr c)]
       | none => []) ++
      [("savedAt", Json.jstr p.savedAt)])

/-- Field access on a JSON object. -/
def getField (fields : List (String × Json)) (k : String) : Option Json :=
  assocGet fields k

/-- Read a parsed JSON value back as a `SavedProject` (the source performs
an unchecked `as SavedProject` cast; this is the checked reading of the
shape `encodeSaved` produces). -/
def decodeSaved (j : Json) : Option SavedProject :=
  match j with
  | Json.jobj fields =>
    match getField fields "key", getField fields "diagramData",
          getField fields "savedAt" with
    | some (Json.jstr k), some dd, some (Json.jstr sa) =>
      match getField fields "code" with
      | some (Json.jstr c) => some ⟨k, dd, some c, sa⟩
      | none => some ⟨k, dd, none, sa⟩
      | some _ => none
    | _, _, _ => none
  | _ => none

/-- `saveProject` of projectStore.ts: store the entry under the prefixed
key; `now` is the `new Date().toISOString()` timestamp. -/
def saveProject (st : Store) (now key : String) (diagramData : Json)
    (code : Option String) : Store :=
  setItem st (STORAGE_PREFIX_STR ++ key) (encodeSaved ⟨key, diagramData, code, now⟩)

/-- `loadProject` of projectStore.ts: read and parse the prefixed key;
`null` when nothing is stored. -/
def loadProject (st : Store) (key : String) : Option SavedProject :=
  match getItem st (STORAGE_PREFIX_STR ++ key) with
  | none => none
  | some raw => decodeSaved raw

/-- `timestamp.replace(/[:.]/g, '-')` in `archiveProject`. -/
def sanitizeTs (s : String) : String :=
  s.map (fun c => if c = ':' || c = '.' then '-' else c)

/-- The archive storage key built by `archiveProject`:
`${STORAGE_PREFIX}archive:${key}:${timestamp}`. -/
def archiveKeyOf (key now : String) : String :=
  STORAGE_PREFIX_STR ++ "archive:" ++ key ++ ":" ++ sanitizeTs now

/-- `archiveProject` of projectStore.ts: copy the raw entry to a
timestamped archive key, then remove the original key; no-op when nothing
is stored under the key. -/
def archiveProject (st : Store) (now key : String) : Store :=
  match getItem st (STORAGE_PREFIX_STR ++ key) with
  | none => st
  | some raw => removeItem (setItem st (archiveKeyOf key now) raw) (STORAGE_PREFIX_STR ++ key)

/-- The `ArchivedProject` record: a `SavedProject` plus its full storage
key. -/
structure ArchivedProject extends SavedProject where
  storageKey : String

/-- `startsWith` on strings, via the underlying character lists. -/
def strStartsWith (s pre : String) : Bool := pre.toList.isPrefixOf s.toList

/-- Insert keeping the newest (largest `savedAt`) first.  The source sorts
with `new Date(b.savedAt).getTime() - new Date(a.savedAt).getTime()`; on
the ISO-8601 UTC timestamps produced by `toISOString` that order is the
lexicographic string order on `savedAt`, which is used here. -/
def insertNewest (p : ArchivedProject) : List ArchivedProject → List ArchivedProject
  | [] => [p]
  | q :: t =>
    if q.toSavedProject.savedAt ≤ p.toSavedProject.savedAt then p :: q :: t
    else q :: insertNewest p t

def sortNewestFirst : List ArchivedProject → List ArchivedProject
  | [] => []
  | p :: t => insertNewest p (sortNewestFirst t)

/-- `listArchivedProjects` of projectStore.ts: collect every stored entry
whose key starts with the archive prefix for the playground key, keeping
its storage key, sorted newest-first. -/
def listArchivedProjects (st : Store) (playgroundKey : String) : List ArchivedProject :=
  let aPre := STORAGE_PREFIX_STR ++ "archive:" ++ playgroundKey ++ ":"
  sortNewestFirst
    (st.filterMap (fun kv =>
      if strStartsWith kv.1 aPre then
        (decodeSaved kv.2).map (fun p => ⟨p, kv.1⟩)
      else none))

/-! ## iconConstants.tsx — the `ICONS` proxy lookup

The proxy's `get` trap is a pure, synchronous lookup; the side effect of
triggering the lazy cloud-library load on a miss does not change the
returned value and is not modelled.  `loaded` is the `CLOUD_ICONS_LOADED`
flag; while the library is loading (`loading` state), the flag is still
`false` and the cache empty, so the unloaded case covers it. -/

/-- The `get` trap of the `ICONS` proxy (iconConstants.tsx lines 43–61):
base icons first, then the cloud cache when loaded, then the generic
fallback `BASE_ICONS[IconType.Generic]`. -/
def iconLookup {α : Type} (base cloudCache : List (String × α)) (loaded : Bool)
    (genericKey key : String) : Option α :=
  if (assocGet base key).isSome then assocGet base key
  else if loaded && (assocGet cloudCache key).isSome then assocGet cloudCache key
  else assocGet base genericKey

/-! ## HTML-injection safety of the highlighter output

`highlightLine`'s output is rendered with `dangerouslySetInnerHTML`
(CodeEditor.tsx line 252).  `SafeHtml` describes the strings the
highlighter may produce: concatenations of single markup-free characters,
HTML-escaped source fragments, and the fixed `span` skeletons whose only
variable part outside the escaped payload is a markup-free color. -/

/-- A color string free of the markup characters `<`, `>` and `&`. -/
def colorOk (s : List Char) : Bool :=
  s.all (fun c => !(c = '<') && !(c = '>') && !(c = '&'))

/-- Strings that carry no user-controlled markup: every raw `<` and `>`
belongs to a `span` skeleton generated by the highlighter itself, and all
other source-derived text occurs HTML-escaped. -/
inductive SafeHtml : List Char → Prop
  | nil : SafeHtml []
  | raw (c : Char) (rest : List Char)
      (hc : (!(c = '<') && !(c = '>') && !(c = '&')) = true)
      (h : SafeHtml rest) : SafeHtml (c :: rest)
  | escChunk (s rest : List Char) (h : SafeHtml rest) : SafeHtml (esc s ++ rest)
  | spanChunk (color : List Char) (bold : Bool) (text rest : List Char)
      (hc : colorOk color = true) (h : SafeHtml rest) :
      SafeHtml (spanStr color bold text ++ rest)
  | commentChunk (text rest : List Char) (h : SafeHtml rest) :
      SafeHtml (commentSpan text ++ rest)

/-! ## Lemmas about the highlighter -/

set_option maxHeartbeats 1000000 in
/-- Every iteration of the scanning loop consumes at least one character. -/
theorem hlStep_pos (c : Char) (t : List Char) : 1 ≤ (hlStep c t).2 := by
  unfold hlStep
  repeat' split
  all_goals dsimp only
  all_goals try omega
  all_goals repeat' split
  all_goals dsimp only
  all_goals try omega
  all_goals
    have hw : ¬(List.takeWhile isWordChar (c :: t)).isEmpty = true := by assumption
  all_goals simp only [Bool.not_eq_true, List.isEmpty_eq_false] at hw
  all_goals exact List.length_pos.mpr hw

/-- The fuel of `hlLoopF` is irrelevant as long as it is at least the
length of the remaining input. -/
theorem hlLoopF_fuel (f : Nat) :
    ∀ (g : Nat) (l : List Char), l.length ≤ f → l.length ≤ g →
      hlLoopF f l = hlLoopF g l := by
  induction f using Nat.strong_induction_on with
  | _ f ih =>
    intro g l hf hg
    cases l with
    | nil => cases f <;> cases g <;> rfl
    | cons c t =>
      cases f with
      | zero => simp at hf
      | succ f' =>
        cases g with
        | zero => simp at hg
        | succ g' =>
          simp only [hlLoopF]
          congr 1
          have hp := hlStep_pos c t
          have hd : ((c :: t).drop (hlStep c t).2).length ≤ t.length := by
            simp only [List.length_drop, List.length_cons]
            omega
          refine ih f' (by omega) g' _ ?_ ?_
          · simp only [List.length_cons] at hf; omega
          · simp only [List.length_cons] at hg; omega

/-- Unfolding equation for `hlLoop` on a nonempty line. -/
theorem hlLoop_cons (c : Char) (t : List Char) :
    hlLoop (c :: t) = (hlStep c t).1 ++ hlLoop ((c :: t).drop (hlStep c t).2) := by
  unfold hlLoop
  show hlLoopF (t.length + 1) (c :: t) = _
  simp only [hlLoopF]
  congr 1
  apply hlLoopF_fuel
  · have hp := hlStep_pos c t
    simp only [List.length_drop, List.length_cons]
    omega
  · exact le_refl _

/-! ## Claims about the highlighter (C3, C4, C6) -/

set_option maxRecDepth 40000 in
/-- C3, counterexample: in the line `a=<->` the characters `<->` occur at
index 2, outside any quoted string, yet `highlightLine` emits them inside
the property-value span of the `=`-value scan — the output contains no
bidirectional-arrow token at all.  So it is not true of every index at
which `<->` occurs outside a quoted string that the three characters
become a single arrow token. -/
theorem claim_C3_counterexample :
    highlightLine "a=<->".toList =
      spanStr T.prop false ['a'] ++ spanStr T.plain false ['='] ++
        spanStr T.propVal false "<->".toList ∧
    ¬ spanStr T.arrow true "<->".toList <:+: highlightLine "a=<->".toList := by
  decide

/-- C3, amended: whenever the scanning loop of `highlightLine` arrives at
a position with the three characters `<->` next (such a position is by
construction outside any quoted string, and not inside a comment line, a
string token or an `=`-value scan), it emits them as a single
bidirectional-arrow token and advances past all three; it never emits `<`
as a separate character followed by a `->` token at such a position, the
three-character operator being tested before the two-character one. -/
theorem claim_C3_arrow_single_token (t : List Char) :
    hlStep '<' ('-' :: '>' :: t) = (spanStr T.arrow true "<->".toList, 3) ∧
    hlLoop ('<' :: '-' :: '>' :: t) = spanStr T.arrow true "<->".toList ++ hlLoop t := by
  have h1 : hlStep '<' ('-' :: '>' :: t) = (spanStr T.arrow true "<->".toList, 3) := rfl
  refine ⟨h1, ?_⟩
  rw [hlLoop_cons, h1]
  rfl

/-- C4, counterexample: for a comment line indented with a tab, the
highlighter does not emit the original indentation; `' '.repeat(indent)`
replaces the tab by a space. -/
theorem claim_C4_counterexample :
    highlightLine ('\t' :: '/' :: '/' :: 'x' :: []) ≠
      '\t' :: commentSpan ('/' :: '/' :: 'x' :: []) := by decide

/-- C4, amended: for every line whose text after trimming leading
whitespace starts with `//`, `highlightLine` treats the entire line as a
comment: it emits one space per leading whitespace character (the
indentation's length, each character rendered as a space) followed by
exactly one comment-styled span containing the (HTML-escaped) trimmed
text, and nothing else — no keyword, identifier, string or arrow tokens. -/
theorem claim_C4_comment_line (l : List Char)
    (h : (l.dropWhile isJsWhite).take 2 = ['/', '/']) :
    highlightLine l =
      List.replicate (l.length - (l.dropWhile isJsWhite).length) ' ' ++
        commentSpan (l.dropWhile isJsWhite) := by
  have hne : ¬l.isEmpty = true := by
    intro hempty
    rw [List.isEmpty_iff] at hempty
    subst hempty
    simp at h
  unfold highlightLine
  rw [if_neg hne]
  dsimp only
  rw [if_pos h]

/-- C4 witness: the amended statement at the concrete line `"  // hi"`. -/
theorem claim_C4_comment_line_witness :
    ("  // hi".toList.dropWhile isJsWhite).take 2 = ['/', '/'] ∧
    highlightLine "  // hi".toList =
      List.replicate ("  // hi".toList.length -
          ("  // hi".toList.dropWhile isJsWhite).length) ' ' ++
        commentSpan ("  // hi".toList.dropWhile isJsWhite) :=
  ⟨by decide, claim_C4_comment_line "  // hi".toList (by decide)⟩

/-- C6: `highlightLine`'s scanning loop makes strict progress — every
iteration, at every character of every line, advances the position by at
least one character (first conjunct, quantified over all iterations) —
and on an unterminated quoted string (a `"` whose tail `t` contains no
closing `"`) a single iteration consumes the whole rest of the line in
one linear `takeWhile` scan, with no backtracking. -/
theorem claim_C6_progress (t : List Char) (h : '"' ∉ t) :
    (∀ (c : Char) (u : List Char), 1 ≤ (hlStep c u).2) ∧
    hlStep '"' t = (spanStr T.stringCol false ('"' :: t), t.length + 1) := by
  refine ⟨fun c u => hlStep_pos c u, ?_⟩
  have htk : t.takeWhile (fun d => !(d = '"')) = t := by
    rw [List.takeWhile_eq_self_iff]
    intro a ha
    simp only [Bool.not_eq_eq_eq_not, Bool.not_true, decide_eq_false_iff_not]
    intro he
    exact h (he ▸ ha)
  simp [hlStep, htk]

/-- C6 witness: progress at a concrete iteration whose tail does contain
a quote, and the single-scan consumption on a concrete unterminated
quote. -/
theorem claim_C6_progress_witness :
    '"' ∉ "abc".toList ∧ 1 ≤ (hlStep 'a' "bc \"def".toList).2 ∧
    hlStep '"' "abc".toList =
      (spanStr T.stringCol false ('"' :: "abc".toList), "abc".toList.length + 1) :=
  ⟨by decide, (claim_C6_progress "abc".toList (by decide)).1 'a' "bc \"def".toList,
    (claim_C6_progress "abc".toList (by decide)).2⟩

/-! ## Claim C9: HTML escaping -/

theorem esc_single (c : Char) : esc [c] = escChar c := by
  simp [esc]

theorem escChar_no_angle (c : Char) : '<' ∉ escChar c ∧ '>' ∉ escChar c := by
  unfold escChar
  split
  · exact ⟨by decide, by decide⟩
  split
  · exact ⟨by decide, by decide⟩
  split
  · exact ⟨by decide, by decide⟩
  rename_i h1 h2 h3
  constructor
  · simp only [List.mem_singleton]
    exact fun he => h2 he.symm
  · simp only [List.mem_singleton]
    exact fun he => h3 he.symm

/-- `esc` never emits a raw angle bracket. -/
theorem esc_no_angle (s : List Char) : '<' ∉ esc s ∧ '>' ∉ esc s := by
  induction s with
  | nil => exact ⟨by simp [esc], by simp [esc]⟩
  | cons c t ih =>
    have hc := escChar_no_angle c
    have he : esc (c :: t) = escChar c ++ esc t := by simp [esc]
    rw [he]
    constructor
    · rw [List.mem_append]
      rintro (h | h)
      · exact hc.1 h
      · exact ih.1 h
    · rw [List.mem_append]
      rintro (h | h)
      · exact hc.2 h
      · exact ih.2 h

set_option maxHeartbeats 1000000 in
/-- The HTML emitted by one `hlStep` is safe, whatever the input. -/
theorem hlStep_safe (c : Char) (t rest : List Char) (h : SafeHtml rest) :
    SafeHtml ((hlStep c t).1 ++ rest) := by
  unfold hlStep
  split
  · -- whitespace branch
    rename_i hws
    dsimp only
    rw [List.singleton_append]
    refine SafeHtml.raw c rest ?_ h
    rw [Bool.or_eq_true, decide_eq_true_iff, decide_eq_true_iff] at hws
    rcases hws with h1 | h1 <;> subst h1 <;> decide
  split
  · -- string branch
    dsimp only
    split
    · exact SafeHtml.spanChunk _ _ _ _ (by decide) h
    · exact SafeHtml.spanChunk _ _ _ _ (by decide) h
  split
  · -- <-> branch
    dsimp only; exact SafeHtml.spanChunk _ _ _ _ (by decide) h
  split
  · -- -> branch
    dsimp only; exact SafeHtml.spanChunk _ _ _ _ (by decide) h
  split
  · -- braces branch
    dsimp only; exact SafeHtml.spanChunk _ _ _ _ (by decide) h
  split
  · -- colon branch
    dsimp only; exact SafeHtml.spanChunk _ _ _ _ (by decide) h
  split
  · -- = branch: the equals span, then possibly a value span
    dsimp only
    rw [List.append_assoc]
    refine SafeHtml.spanChunk _ _ _ _ (by decide) ?_
    split
    · simpa using h
    split
    · exact SafeHtml.spanChunk _ _ _ _ (by decide) h
    · exact SafeHtml.spanChunk _ _ _ _ (by decide) h
  -- word / fallback branch
  dsimp only
  split
  · -- empty word: fallback escapes the single character
    rw [← esc_single]
    exact SafeHtml.escChunk _ _ h
  · dsimp only
    split
    · exact SafeHtml.spanChunk _ _ _ _ (by decide) h
    split
    · exact SafeHtml.spanChunk _ _ _ _ (by decide) h
    split
    · exact SafeHtml.spanChunk _ _ _ _ (by decide) h
    · exact SafeHtml.spanChunk _ _ _ _ (by decide) h

/-- The whole scanning loop only emits safe HTML. -/
theorem hlLoopF_safe (f : Nat) : ∀ l : List Char, SafeHtml (hlLoopF f l) := by
  induction f with
  | zero => intro l; cases l <;> exact SafeHtml.nil
  | succ f ih =>
    intro l
    cases l with
    | nil => exact SafeHtml.nil
    | cons c t => exact hlStep_safe c t _ (ih _)

theorem replicate_space_safe (n : Nat) (rest : List Char) (h : SafeHtml rest) :
    SafeHtml (List.replicate n ' ' ++ rest) := by
  induction n with
  | zero => simpa using h
  | succ n ih =>
    rw [List.replicate_succ, List.cons_append]
    exact SafeHtml.raw ' ' _ (by decide) ih

/-- C9: every `&`, `<` and `>` coming from the source text is HTML-escaped
in the output of `highlightLine` — the output is a concatenation of safe
characters, escaped source fragments and fixed span markup (`SafeHtml`),
and escaped text itself contains no raw angle bracket, so the only raw `<`
and `>` in the output belong to the span markup the highlighter generates
itself. -/
theorem claim_C9_html_escaping (line s : List Char) :
    SafeHtml (highlightLine line) ∧ '<' ∉ esc s ∧ '>' ∉ esc s := by
  refine ⟨?_, (esc_no_angle s).1, (esc_no_angle s).2⟩
  unfold highlightLine
  split
  · exact SafeHtml.raw '\n' [] (by decide) SafeHtml.nil
  · dsimp only
    split
    · refine replicate_space_safe _ _ ?_
      have hc := SafeHtml.commentChunk (line.dropWhile isJsWhite) [] SafeHtml.nil
      simpa using hc
    · exact hlLoopF_safe _ _

/-! ## Claim C5: error ordering -/

/-- C5: for every input, the error list returned by `parseCubeGenDSL` is
ordered by ascending line number, whatever the detection order was. -/
theorem claim_C5_error_ordering (input : List Char) :
    List.Sorted (fun a b : ParseError => a.line ≤ b.line)
      (parseCubeGenDSL input).errors := by
  have hs : List.Sorted (fun a b : ParseError => a.line ≤ b.line) (parseErrsAll input) := by
    unfold parseErrsAll sortByLine
    exact List.sorted_insertionSort _ _
  unfold parseCubeGenDSL
  split <;> exact hs

/-! ## Claims C1 and C2: the Generate handler -/

/-- Every character of every line of `splitLines s` is a character of `s`. -/
theorem mem_splitLines (s : List Char) :
    ∀ l ∈ splitLines s, ∀ c ∈ l, c ∈ s := by
  induction s with
  | nil =>
    intro l hl c hc
    simp only [splitLines, List.mem_singleton] at hl
    subst hl
    simp at hc
  | cons a t ih =>
    intro l hl c hc
    unfold splitLines at hl
    by_cases ha : a = '\n'
    · rw [if_pos ha] at hl
      rcases List.mem_cons.mp hl with rfl | hl
      · simp at hc
      · exact List.mem_cons_of_mem a (ih l hl c hc)
    · rw [if_neg ha] at hl
      cases hsp : splitLines t with
      | nil =>
        rw [hsp] at hl
        simp only [List.mem_singleton] at hl
        subst hl
        simp only [List.mem_singleton] at hc
        subst hc
        exact List.mem_cons_self _ _
      | cons hd r =>
        rw [hsp] at hl
        rcases List.mem_cons.mp hl with rfl | hl
        · rcases List.mem_cons.mp hc with rfl | hc
          · exact List.mem_cons_self _ _
          · exact List.mem_cons_of_mem a (ih hd (hsp ▸ List.mem_cons_self hd r) c hc)
        · exact List.mem_cons_of_mem a (ih l (hsp ▸ List.mem_cons_of_mem hd hl) c hc)

/-- `trim()` gives the empty string exactly on all-whitespace input. -/
theorem trimBoth_eq_nil_iff (l : List Char) :
    trimBoth l = [] ↔ ∀ c ∈ l, isJsWhite c = true := by
  unfold trimBoth
  constructor
  · intro h c hc
    rw [List.reverse_eq_nil_iff, List.dropWhile_eq_nil_iff] at h
    have hall : ∀ x ∈ l.dropWhile isJsWhite, isJsWhite x = true := by
      intro x hx
      exact h x (List.mem_reverse.mpr hx)
    have hsplit := List.takeWhile_append_dropWhile (p := isJsWhite) (l := l)
    rw [← hsplit] at hc
    rcases List.mem_append.mp hc with hc | hc
    · exact List.mem_takeWhile_imp hc
    · exact hall c hc
  · intro h
    have h1 : l.dropWhile isJsWhite = [] := List.dropWhile_eq_nil_iff.mpr h
    rw [h1]
    rfl

/-- A blank (all-whitespace) line is dropped by the scanner. -/
theorem scanLine_blank (acc : ScanAcc) (n : Nat) (line : List Char)
    (h : trimBoth line = []) : scanLine acc n line = acc := by
  unfold scanLine
  rw [h]
  rfl

/-- Scanning only blank lines leaves the accumulator unchanged. -/
theorem scanAll_blank (ls : List (List Char)) :
    ∀ (acc : ScanAcc) (n : Nat), (∀ l ∈ ls, trimBoth l = []) →
      scanAll acc n ls = acc := by
  induction ls with
  | nil => intro acc n _; rfl
  | cons l ls ih =>
    intro acc n h
    unfold scanAll
    rw [scanLine_blank acc n l (h l (List.mem_cons_self l ls))]
    exact ih acc (n + 1) (fun x hx => h x (List.mem_cons_of_mem l hx))

/-- Parsing an all-whitespace input yields no errors. -/
theorem parse_allWhite (input : List Char)
    (h : ∀ c ∈ input, isJsWhite c = true) :
    (parseCubeGenDSL input).errors = [] := by
  have hall : ∀ l ∈ splitLines input, trimBoth l = [] := by
    intro l hl
    exact (trimBoth_eq_nil_iff l).mpr (fun c hc => h c (mem_splitLines input l hl c hc))
  have h0 : parseErrsAll input = [] := by
    unfold parseErrsAll parseAcc
    rw [scanAll_blank (splitLines input) emptyScanAcc 1 hall]
    rfl
  unfold parseCubeGenDSL
  split <;> exact h0

/-- A non-empty error list implies the entered code was not blank (so the
Generate handler does not take its empty-code early return). -/
theorem trim_ne_of_errors (code : List Char)
    (h : (parseCubeGenDSL code).errors ≠ []) : ¬(trimBoth code).isEmpty = true := by
  intro hemp
  exact h (parse_allWhite code ((trimBoth_eq_nil_iff code).mp (List.isEmpty_iff.mp hemp)))

/-- On success the error list is empty. -/
theorem parse_success_errors (input : List Char)
    (h : (parseCubeGenDSL input).success = true) :
    (parseCubeGenDSL input).errors = [] := by
  unfold parseCubeGenDSL at h ⊢
  split at h
  · rename_i hemp
    rw [if_pos hemp]
    exact List.isEmpty_iff.mp hemp
  · simp at h

/-- On success the document is present. -/
theorem parse_success_data (input : List Char)
    (h : (parseCubeGenDSL input).success = true) :
    (parseCubeGenDSL input).data.isSome = true := by
  unfold parseCubeGenDSL at h ⊢
  split at h
  · rename_i hemp
    rw [if_pos hemp]
    rfl
  · simp at h

/-- A non-empty error list means the parse failed. -/
theorem parse_fail_of_errors (code : List Char)
    (h : (parseCubeGenDSL code).errors ≠ []) :
    (parseCubeGenDSL code).success = false := by
  cases hs : (parseCubeGenDSL code).success with
  | false => rfl
  | true => exact absurd (parse_success_errors code hs) h

/-- C1: whenever the parse of the entered code produces a non-empty error
list, the Generate handler stores it, the editor receives the first
error's line as `errorLine`, and a row is marked as the error row exactly
when its 1-based line number equals that value. -/
theorem claim_C1_first_error_marks_row (code : List Char) (e : ParseError)
    (h : (parseCubeGenDSL code).errors.head? = some e) (st : PGState) :
    editorErrorLine (handleGenerate st code).parseErrors = some e.line ∧
    ∀ idx : Nat,
      isErrorRow (editorErrorLine (handleGenerate st code).parseErrors) idx = true ↔
        idx + 1 = e.line := by
  have herr : (parseCubeGenDSL code).errors ≠ [] := by
    intro h0
    rw [h0] at h
    simp at h
  have hfail := parse_fail_of_errors code herr
  have hne := trim_ne_of_errors code herr
  unfold handleGenerate handleGenerateR
  rw [if_neg hne]
  dsimp only
  rw [if_neg (by simp [hfail])]
  dsimp only
  constructor
  · simp [editorErrorLine, h]
  · intro idx
    simp [editorErrorLine, h, isErrorRow]

/-- A concrete state for the witnesses. -/
def pg0 : PGState := ⟨[], none, none, [none], 0, []⟩

/-- C1 witness: the single unrecognized-statement error of the input
`???` is on line 1; the editor marks row 1 (index 0). -/
theorem claim_C1_first_error_marks_row_witness :
    (parseCubeGenDSL "???".toList).errors.head? =
      some ⟨1, "Unrecognized statement"⟩ ∧
    editorErrorLine (handleGenerate pg0 "???".toList).parseErrors = some 1 ∧
    (isErrorRow (editorErrorLine (handleGenerate pg0 "???".toList).parseErrors) 0 = true ↔
      0 + 1 = 1) :=
  ⟨by decide,
   (claim_C1_first_error_marks_row "???".toList ⟨1, "Unrecognized statement"⟩
      (by decide) pg0).1,
   (claim_C1_first_error_marks_row "???".toList ⟨1, "Unrecognized statement"⟩
      (by decide) pg0).2 0⟩

/-- C2: when the parse reports failure (success false or data absent), the
Generate handler leaves the diagram history, history index and selection
unchanged, and stores the complete returned error list. -/
theorem claim_C2_failure_frame (st : PGState) (code : List Char)
    (h : (parseCubeGenDSL code).success = false ∨ (parseCubeGenDSL code).data = none) :
    (handleGenerate st code).history = st.history ∧
    (handleGenerate st code).historyIndex = st.historyIndex ∧
    (handleGenerate st code).selectedIds = st.selectedIds ∧
    (handleGenerate st code).parseErrors = (parseCubeGenDSL code).errors := by
  have hfail : (parseCubeGenDSL code).success = false := by
    rcases h with h | h
    · exact h
    · cases hs : (parseCubeGenDSL code).success with
      | false => rfl
      | true =>
        have := parse_success_data code hs
        rw [h] at this
        simp at this
  have herr : (parseCubeGenDSL code).errors ≠ [] := by
    intro h0
    have hsucc : (parseCubeGenDSL code).success = true := by
      unfold parseCubeGenDSL at h0 ⊢
      split at h0
      · rename_i hemp
        rw [if_pos hemp]
      · rename_i hemp
        exact absurd (List.isEmpty_iff.mpr h0) hemp
    rw [hfail] at hsucc
    simp at hsucc
  have hne := trim_ne_of_errors code herr
  unfold handleGenerate handleGenerateR
  rw [if_neg hne]
  dsimp only
  rw [if_neg (by simp [hfail])]
  exact ⟨rfl, rfl, rfl, rfl⟩

/-- C2 witness: the frame property at the concrete failing input `???`. -/
theorem claim_C2_failure_frame_witness :
    ((parseCubeGenDSL "???".toList).success = false ∨
      (parseCubeGenDSL "???".toList).data = none) ∧
    (handleGenerate pg0 "???".toList).history = pg0.history ∧
    (handleGenerate pg0 "???".toList).historyIndex = pg0.historyIndex ∧
    (handleGenerate pg0 "???".toList).selectedIds = pg0.selectedIds ∧
    (handleGenerate pg0 "???".toList).parseErrors = (parseCubeGenDSL "???".toList).errors :=
  ⟨Or.inl (by decide),
   (claim_C2_failure_frame pg0 "???".toList (Or.inl (by decide))).1,
   (claim_C2_failure_frame pg0 "???".toList (Or.inl (by decide))).2.1,
   (claim_C2_failure_frame pg0 "???".toList (Or.inl (by decide))).2.2.1,
   (claim_C2_failure_frame pg0 "???".toList (Or.inl (by decide))).2.2.2⟩

/-! ## Claims C7 and C10: the project store -/

theorem assocGet_append {α : Type} (l₁ l₂ : List (String × α)) (k : String) :
    assocGet (l₁ ++ l₂) k =
      (match assocGet l₁ k with
       | some v => some v
       | none => assocGet l₂ k) := by
  induction l₁ with
  | nil => rfl
  | cons kv t ih =>
    by_cases hk : (kv.1 == k) = true
    · simp [assocGet, hk]
    · simp [assocGet, hk, ih]

theorem assocGet_filter_self {α : Type} (st : List (String × α)) (k : String) :
    assocGet (st.filter (fun kv => !(kv.1 == k))) k = none := by
  induction st with
  | nil => rfl
  | cons kv t ih =>
    by_cases h1 : (kv.1 == k) = true
    · simp [List.filter_cons, h1, ih]
    · simp [List.filter_cons, h1, assocGet, ih]

theorem assocGet_filter_ne {α : Type} (st : List (String × α)) (k k' : String)
    (h : k' ≠ k) :
    assocGet (st.filter (fun kv => !(kv.1 == k))) k' = assocGet st k' := by
  induction st with
  | nil => rfl
  | cons kv t ih =>
    by_cases h1 : (kv.1 == k) = true
    · have h2 : (kv.1 == k') = false := by
        have hk : kv.1 = k := beq_iff_eq.mp h1
        rw [beq_eq_false_iff_ne, hk]
        exact fun he => h he.symm
      simp [List.filter_cons, h1, assocGet, h2, ih]
    · simp [List.filter_cons, h1, assocGet, ih]

theorem getItem_setItem_self (st : Store) (k : String) (v : Json) :
    getItem (setItem st k v) k = some v := by
  unfold getItem setItem
  rw [assocGet_append, assocGet_filter_self]
  simp [assocGet]

theorem getItem_setItem_ne (st : Store) (k k' : String) (v : Json) (h : k' ≠ k) :
    getItem (setItem st k v) k' = getItem st k' := by
  unfold getItem setItem
  rw [assocGet_append, assocGet_filter_ne st k k' h]
  have h2 : assocGet [(k, v)] k' = none := by
    have : (k == k') = false := by
      rw [beq_eq_false_iff_ne]
      exact fun he => h he.symm
    simp [assocGet, this]
  cases hres : assocGet st k' <;> simp [h2]

theorem getItem_removeItem_self (st : Store) (k : String) :
    getItem (removeItem st k) k = none := by
  unfold getItem removeItem
  exact assocGet_filter_self st k

theorem getItem_removeItem_ne (st : Store) (k k' : String) (h : k' ≠ k) :
    getItem (removeItem st k) k' = getItem st k' := by
  unfold getItem removeItem
  exact assocGet_filter_ne st k k' h

/-- Decoding inverts encoding of a saved project. -/
theorem decode_encode (p : SavedProject) : decodeSaved (encodeSaved p) = some p := by
  rcases p with ⟨k, dd, code, sa⟩
  cases code <;> rfl

/-- C7: saving a project and loading it back under the same key returns
the saved key, diagram data, code and the save timestamp (identified up to
JSON serialization by the `Json` value embedding). -/
theorem claim_C7_save_load_roundtrip (st : Store) (now key : String)
    (diagramData : Json) (code : Option String) :
    loadProject (saveProject st now key diagramData code) key =
      some ⟨key, diagramData, code, now⟩ := by
  unfold loadProject saveProject
  rw [getItem_setItem_self]
  exact decode_encode _

theorem mem_insertNewest (a p : ArchivedProject) (l : List ArchivedProject) :
    a ∈ insertNewest p l ↔ a = p ∨ a ∈ l := by
  induction l with
  | nil => simp [insertNewest]
  | cons q t ih =>
    unfold insertNewest
    split
    · simp [List.mem_cons]
    · simp only [List.mem_cons, ih]
      tauto

theorem mem_sortNewestFirst (a : ArchivedProject) (l : List ArchivedProject) :
    a ∈ sortNewestFirst l ↔ a ∈ l := by
  induction l with
  | nil => simp [sortNewestFirst]
  | cons p t ih => simp [sortNewestFirst, mem_insertNewest, ih]

theorem strToList_append (a b : String) : (a ++ b).toList = a.toList ++ b.toList := by
  cases a
  cases b
  rfl

theorem isPrefixOf_self_append (l r : List Char) : l.isPrefixOf (l ++ r) = true := by
  induction l with
  | nil => simp [List.isPrefixOf]
  | cons c t ih => simp [List.isPrefixOf, ih]

theorem strStartsWith_append (pre ts : String) :
    strStartsWith (pre ++ ts) pre = true := by
  unfold strStartsWith
  rw [strToList_append]
  exact isPrefixOf_self_append _ _

/-- The archive key is never the plain project key (it is strictly
longer). -/
theorem archiveKeyOf_ne (key now : String) :
    archiveKeyOf key now ≠ STORAGE_PREFIX_STR ++ key := by
  intro he
  have h1 := congrArg String.length he
  simp only [archiveKeyOf, String.length_append] at h1
  have h8 : ("archive:" : String).length = 8 := rfl
  have hc : (":" : String).length = 1 := rfl
  rw [h8, hc] at h1
  omega

/-- C10: archiving a saved project moves the entry without altering it:
afterwards the plain key loads nothing, the identical entry is listed by
`listArchivedProjects` under the timestamped archive key, and every other
key's binding is unchanged. -/
theorem claim_C10_archive_moves_entry (st : Store) (now key : String) (p : SavedProject)
    (h : loadProject st key = some p) :
    loadProject (archiveProject st now key) key = none ∧
    (⟨p, archiveKeyOf key now⟩ : ArchivedProject) ∈
      listArchivedProjects (archiveProject st now key) key ∧
    (∀ k' : String, k' ≠ STORAGE_PREFIX_STR ++ key → k' ≠ archiveKeyOf key now →
      getItem (archiveProject st now key) k' = getItem st k') := by
  unfold loadProject at h
  cases hraw : getItem st (STORAGE_PREFIX_STR ++ key) with
  | none =>
    rw [hraw] at h
    cases h
  | some raw =>
    rw [hraw] at h
    have hdec : decodeSaved raw = some p := h
    unfold archiveProject
    rw [hraw]
    refine ⟨?_, ?_, ?_⟩
    · unfold loadProject
      rw [getItem_removeItem_self]
    · have hmem : (archiveKeyOf key now, raw) ∈
          removeItem (setItem st (archiveKeyOf key now) raw) (STORAGE_PREFIX_STR ++ key) := by
        unfold removeItem setItem
        rw [List.mem_filter]
        constructor
        · exact List.mem_append_right _ (List.mem_singleton.mpr rfl)
        · have hne := archiveKeyOf_ne key now
          simp [hne]
      unfold listArchivedProjects
      rw [mem_sortNewestFirst, List.mem_filterMap]
      refine ⟨(archiveKeyOf key now, raw), hmem, ?_⟩
      have hsw : strStartsWith (archiveKeyOf key now)
          (STORAGE_PREFIX_STR ++ "archive:" ++ key ++ ":") = true := by
        have hk : archiveKeyOf key now =
            (STORAGE_PREFIX_STR ++ "archive:" ++ key ++ ":") ++ sanitizeTs now := rfl
        rw [hk]
        exact strStartsWith_append _ _
      dsimp only
      rw [if_pos hsw, hdec]
      rfl
    · intro k' h1 h2
      rw [getItem_removeItem_ne _ _ _ h1, getItem_setItem_ne _ _ _ _ h2]

/-- C10 witness: a concrete store with one saved project, archived at a
concrete timestamp. -/
theorem claim_C10_archive_moves_entry_witness :
    loadProject
        (saveProject [] "2024-01-02T03:04:05.678Z" "code-playground" (Json.jobj []) (some "node a"))
        "code-playground" =
      some ⟨"code-playground", Json.jobj [], some "node a", "2024-01-02T03:04:05.678Z"⟩ ∧
    loadProject
        (archiveProject
          (saveProject [] "2024-01-02T03:04:05.678Z" "code-playground" (Json.jobj []) (some "node a"))
          "2024-01-02T03:04:05.678Z" "code-playground")
        "code-playground" = none ∧
    (⟨⟨"code-playground", Json.jobj [], some "node a", "2024-01-02T03:04:05.678Z"⟩,
        archiveKeyOf "code-playground" "2024-01-02T03:04:05.678Z"⟩ : ArchivedProject) ∈
      listArchivedProjects
        (archiveProject
          (saveProject [] "2024-01-02T03:04:05.678Z" "code-playground" (Json.jobj []) (some "node a"))
          "2024-01-02T03:04:05.678Z" "code-playground")
        "code-playground" ∧
    getItem
        (archiveProject
          (saveProject [] "2024-01-02T03:04:05.678Z" "code-playground" (Json.jobj []) (some "node a"))
          "2024-01-02T03:04:05.678Z" "code-playground")
        "other-key" =
      getItem
        (saveProject [] "2024-01-02T03:04:05.678Z" "code-playground" (Json.jobj []) (some "node a"))
        "other-key" :=
  ⟨rfl,
   (claim_C10_archive_moves_entry
      (saveProject [] "2024-01-02T03:04:05.678Z" "code-playground" (Json.jobj []) (some "node a"))
      "2024-01-02T03:04:05.678Z" "code-playground"
      ⟨"code-playground", Json.jobj [], some "node a", "2024-01-02T03:04:05.678Z"⟩ rfl).1,
   (claim_C10_archive_moves_entry
      (saveProject [] "2024-01-02T03:04:05.678Z" "code-playground" (Json.jobj []) (some "node a"))
      "2024-01-02T03:04:05.678Z" "code-playground"
      ⟨"code-playground", Json.jobj [], some "node a", "2024-01-02T03:04:05.678Z"⟩ rfl).2.1,
   (claim_C10_archive_moves_entry
      (saveProject [] "2024-01-02T03:04:05.678Z" "code-playground" (Json.jobj []) (some "node a"))
      "2024-01-02T03:04:05.678Z" "code-playground"
      ⟨"code-playground", Json.jobj [], some "node a", "2024-01-02T03:04:05.678Z"⟩ rfl).2.2
     "other-key" (by decide) (by decide)⟩

/-! ## Claim C8: the icon lookup -/

/-- C8: the proxy lookup is total and synchronous — a base hit returns the
base icon, a cloud hit after the library has loaded returns the cached
cloud icon, and any other key (including every miss before the library is
loaded) returns the generic fallback; given the generic icon exists in the
base set, the lookup never returns `none`. -/
theorem claim_C8_icon_lookup {α : Type} (base cloudCache : List (String × α))
    (loaded : Bool) (genericKey key : String) (g : α)
    (hg : assocGet base genericKey = some g) :
    (iconLookup base cloudCache loaded genericKey key).isSome = true ∧
    (∀ v, assocGet base key = some v →
      iconLookup base cloudCache loaded genericKey key = some v) ∧
    (assocGet base key = none → loaded = true →
      ∀ v, assocGet cloudCache key = some v →
        iconLookup base cloudCache loaded genericKey key = some v) ∧
    (assocGet base key = none → (loaded = false ∨ assocGet cloudCache key = none) →
      iconLookup base cloudCache loaded genericKey key = some g) := by
  unfold iconLookup
  refine ⟨?_, ?_, ?_, ?_⟩
  · cases hb : assocGet base key with
    | some v => simp [hb]
    | none => cases loaded <;> cases hc : assocGet cloudCache key <;> simp [hb, hc, hg]
  · intro v hv
    simp [hv]
  · intro hb hl v hv
    simp [hb, hl, hv]
  · intro hb hl
    rcases hl with hl | hl
    · simp [hb, hl, hg]
    · cases loaded <;> simp [hb, hl, hg]

/-- C8 witness: a miss on the cloud key `S3` before the library is loaded
yields the generic fallback, synchronously. -/
theorem claim_C8_icon_lookup_witness :
    assocGet [("Generic", 0), ("User", 1)] "Generic" = some 0 ∧
    (iconLookup [("Generic", 0), ("User", 1)] [("S3", 2)] false "Generic" "S3").isSome = true ∧
    iconLookup [("Generic", 0), ("User", 1)] [("S3", 2)] false "Generic" "S3" = some 0 :=
  ⟨by decide,
   (claim_C8_icon_lookup [("Generic", 0), ("User", 1)] [("S3", 2)] false "Generic" "S3" 0
      (by decide)).1,
   (claim_C8_icon_lookup [("Generic", 0), ("User", 1)] [("S3", 2)] false "Generic" "S3" 0
      (by decide)).2.2.2 (by decide) (Or.inl rfl)⟩

end CubeGen
